import Mathlib

/-!
Verification of the encrypted similarity-search core and frontend state logic
of the pdf-chat repository. The backend FHE service is modelled from the
specification (its Python sources are not in the frontend tree); the frontend
React logic (PdfContext, chat history formatting) is embedded from the
TypeScript sources.
-/

namespace PdfChat

/-! ## Quantizer -/

/-- A quantized vector: fixed-width signed integers. -/
abbrev QuantizedVector := List Int

/-- Modelled from the spec: clipping to the representable range of
`bits`-width signed integers, i.e. `[-2^(bits-1), 2^(bits-1) - 1]`
(the Quantizer of backend/fhe_service.py is not in src/). -/
def clampInt (bits : Nat) (z : Int) : Int :=
  max (-(2 ^ (bits - 1))) (min (2 ^ (bits - 1) - 1) z)

/-- Modelled from the spec: the affine mapping `q = round(v / scale)` clipped
to the representable range of `bits`-width signed integers
(backend/fhe_service.py quantizer is not in src/). -/
def quantize (v : List ℚ) (scale : ℚ) (bits : Nat) : QuantizedVector :=
  v.map fun x => clampInt bits (round (x / scale))

/-- Modelled from the spec: inverse affine mapping `v = scale * q`
(backend/fhe_service.py quantizer is not in src/). -/
def dequantize (q : QuantizedVector) (scale : ℚ) : List ℚ :=
  q.map fun z => scale * (z : ℚ)

/-! ## FHE context -/

/-- Failure modes of homomorphic operations (spec error taxonomy). -/
inductive FheError where
  | evaluationError
  | decryptionError
deriving DecidableEq

/-- Modelled from the spec: a ciphertext is an opaque encrypted blob of a
quantized vector; `corrupt` models a malformed or wrong-epoch blob on which
homomorphic operations fail (backend/fhe_service.py is not in src/). -/
structure Ciphertext where
  payload : List Int
  corrupt : Bool
deriving DecidableEq

/-- Modelled from the spec: encryption of a quantized vector; the scheme is
assumed correct, so the model carries the plaintext payload
(backend/fhe_service.py is not in src/). -/
def encrypt (q : QuantizedVector) : Ciphertext :=
  { payload := q, corrupt := false }

/-- Integer dot product as computed by the homomorphic circuit:
an exact sum of products. -/
def dotInt (a b : List Int) : Int :=
  (List.zipWith (· * ·) a b).sum

/-- Modelled from the spec: `evaluate(query_ct, chunk_ct)` runs the
homomorphic dot-product circuit, an exact sum-of-products; it fails with
`EvaluationError` on a malformed ciphertext (backend/fhe_service.py is not
in src/). -/
def evaluate (qct cct : Ciphertext) : Except FheError Ciphertext :=
  if qct.corrupt || cct.corrupt then .error .evaluationError
  else .ok { payload := [dotInt qct.payload cct.payload], corrupt := false }

/-- Modelled from the spec: `decrypt(score_ct)` recovers the scalar score;
it fails with `DecryptionError` on a malformed ciphertext
(backend/fhe_service.py is not in src/). -/
def decrypt (c : Ciphertext) : Except FheError Int :=
  if c.corrupt then .error .decryptionError else .ok c.payload.headI

/-- The specification-side dot product `Σ a_i * b_i` over matching shapes. -/
def specDot (a b : List Int) : Int :=
  ∑ i ∈ Finset.range a.length, a.getD i 0 * b.getD i 0

/-! ## Ciphertext store -/

/-- Modelled from the spec: a chunk record associates a document, a chunk id,
its ciphertext and (for the hybrid evaluator only) its clear reduced vector
(backend/database.py models are not in src/). -/
structure ChunkRecord where
  doc : String
  cid : Nat
  ct : Ciphertext
  reduced : List ℚ
deriving DecidableEq

/-- The ciphertext store: chunk records in insertion order. -/
abbrev CiphertextStore := List ChunkRecord

/-- Modelled from the spec: `get_all(document_id)` returns the ordered
sequence of `(chunk_id, ciphertext)` pairs in chunk insertion order
(backend store is not in src/). -/
def get_all (docId : String) (db : CiphertextStore) : List (Nat × Ciphertext) :=
  (db.filter fun r => r.doc == docId).map fun r => (r.cid, r.ct)

/-- Modelled from the spec: the clear reduced vectors of a document, kept
only to drive the hybrid evaluator (backend store is not in src/). -/
def get_all_clear (docId : String) (db : CiphertextStore) : List (Nat × List ℚ) :=
  (db.filter fun r => r.doc == docId).map fun r => (r.cid, r.reduced)

/-- Modelled from the spec: `delete(document_id)` removes all of a
document's ciphertexts and chunk records (backend store is not in src/). -/
def deleteDoc (docId : String) (db : CiphertextStore) : CiphertextStore :=
  db.filter fun r => !(r.doc == docId)

/-! ## Ranking -/

/-- A scored chunk: insertion index, chunk id and score. -/
structure Scored (α : Type) where
  idx : Nat
  cid : Nat
  score : α
deriving DecidableEq

/-- Ranking order: descending by score, ties broken by ascending insertion
index (chunk insertion order). -/
def rankRel {α : Type} [LinearOrder α] (s t : Scored α) : Prop :=
  t.score < s.score ∨ (s.score = t.score ∧ s.idx ≤ t.idx)

instance {α : Type} [LinearOrder α] : DecidableRel (@rankRel α _) := fun s t =>
  decidable_of_iff (t.score < s.score ∨ (s.score = t.score ∧ s.idx ≤ t.idx)) Iff.rfl

instance {α : Type} [LinearOrder α] : IsTotal (Scored α) rankRel where
  total s t := by
    rcases lt_trichotomy t.score s.score with h | h | h
    · exact Or.inl (Or.inl h)
    · rcases Nat.le_total s.idx t.idx with hi | hi
      · exact Or.inl (Or.inr ⟨h.symm, hi⟩)
      · exact Or.inr (Or.inr ⟨h, hi⟩)
    · exact Or.inr (Or.inl h)

instance {α : Type} [LinearOrder α] : IsTrans (Scored α) rankRel where
  trans a b c hab hbc := by
    rcases hab with h1 | ⟨h1, hi1⟩
    · rcases hbc with h2 | ⟨h2, hi2⟩
      · exact Or.inl (h2.trans h1)
      · exact Or.inl (h2 ▸ h1)
    · rcases hbc with h2 | ⟨h2, hi2⟩
      · exact Or.inl (h1 ▸ h2)
      · exact Or.inr ⟨h1.trans h2, hi1.trans hi2⟩

/-! ## Similarity engine -/

/-- Failure of a whole search (spec error policy). -/
inductive SearchError where
  | allChunksFailed
deriving DecidableEq

/-- Modelled from the spec: per-chunk scoring of a query ciphertext against
the stored chunk ciphertexts in insertion order; a chunk whose homomorphic
evaluation or decryption fails is skipped (backend similarity engine is not
in src/). -/
def scoreChunks (qct : Ciphertext) : Nat → List (Nat × Ciphertext) → List (Scored Int)
  | _, [] => []
  | i, (cid, ct) :: rest =>
    match (evaluate qct ct).bind decrypt with
    | .ok s => { idx := i, cid := cid, score := s } :: scoreChunks qct (i + 1) rest
    | .error _ => scoreChunks qct (i + 1) rest

/-- The scored chunks of a document for a given quantized query. -/
def scoredOf (db : CiphertextStore) (docId : String) (q : QuantizedVector) :
    List (Scored Int) :=
  scoreChunks (encrypt q) 0 (get_all docId db)

/-- The scored chunks ranked: descending score, ties by insertion order. -/
def rankedOf (db : CiphertextStore) (docId : String) (q : QuantizedVector) :
    List (Scored Int) :=
  List.insertionSort rankRel (scoredOf db docId q)

/-- Projection of a ranked entry to the returned `(chunk_id, score)` pair. -/
def projPair (s : Scored Int) : Nat × Int :=
  (s.cid, s.score)

/-- Modelled from the spec: `similarity_search(document_id, query, k)`
encrypts the query once, scores every stored chunk homomorphically, sorts
descending by score with ties by ascending insertion order and returns the
first `k`; zero stored chunks yield an empty list, while a failure on every
chunk of a nonempty document surfaces as a failed search
(backend similarity engine is not in src/). -/
def similarity_search (db : CiphertextStore) (docId : String)
    (q : QuantizedVector) (k : Nat) : Except SearchError (List (Nat × Int)) :=
  if get_all docId db = [] then .ok []
  else if scoredOf db docId q = [] then .error .allChunksFailed
  else .ok (((rankedOf db docId q).take k).map projPair)

/-- Modelled from the spec: the observable number of chunks skipped during
scoring (backend similarity engine is not in src/). -/
def skippedCount (db : CiphertextStore) (docId : String) (q : QuantizedVector) : Nat :=
  (get_all docId db).length - (scoredOf db docId q).length

/-! ## Hybrid evaluator -/

/-- Rational dot product for the plaintext shadow path. -/
def dotQ (a b : List ℚ) : ℚ :=
  (List.zipWith (· * ·) a b).sum

/-- Modelled from the spec: plaintext scoring of the query's reduced vector
against each chunk's clear reduced vector, in insertion order
(backend hybrid evaluator is not in src/). -/
def plainScoreChunks (qred : List ℚ) : Nat → List (Nat × List ℚ) → List (Scored ℚ)
  | _, [] => []
  | i, (cid, v) :: rest =>
    { idx := i, cid := cid, score := dotQ qred v } :: plainScoreChunks qred (i + 1) rest

/-- The plaintext ranking of a document for a reduced query. -/
def plainRankedOf (db : CiphertextStore) (docId : String) (qred : List ℚ) :
    List (Scored ℚ) :=
  List.insertionSort rankRel (plainScoreChunks qred 0 (get_all_clear docId db))

/-- Modelled from the spec: the plaintext top-k chunk ids
(backend hybrid evaluator is not in src/). -/
def plainTopK (db : CiphertextStore) (docId : String) (qred : List ℚ) (k : Nat) :
    List Nat :=
  ((plainRankedOf db docId qred).take k).map Scored.cid

/-- Modelled from the spec: the encrypted-path top-k chunk ids
(backend hybrid evaluator is not in src/). -/
def encTopK (db : CiphertextStore) (docId : String) (q : QuantizedVector) (k : Nat) :
    List Nat :=
  match similarity_search db docId q k with
  | .ok l => l.map Prod.fst
  | .error _ => []

/-- Modelled from the spec: recorded overlap =
size of the intersection of the encrypted and plaintext top-k sets, over `k`
(backend hybrid evaluator is not in src/). -/
def overlap (db : CiphertextStore) (docId : String) (q : QuantizedVector)
    (qred : List ℚ) (k : Nat) : ℚ :=
  (((encTopK db docId q k).toFinset ∩ (plainTopK db docId qred k).toFinset).card : ℚ)
    / (k : ℚ)

/-! ## Privacy auditor -/

/-- Modelled from the spec: the per-query audit record carries the
ciphertexts-touched count, the declared decryption scope and the
zero-plaintext-exposure flag (backend privacy auditor is not in src/;
the frontend AuditData interface in src/unnamed/part_006 declares the same
shape). -/
structure AuditRecord where
  ciphertexts_touched : Nat
  decryption_scope : List String
  zero_plaintext_docs_exposed : Bool
deriving DecidableEq

/-- Modelled from the spec: the auditor records, for every query, the number
of ciphertexts homomorphically touched and the fixed declared decryption
scope, with `zero_plaintext_docs_exposed` true by construction
(backend privacy auditor is not in src/). -/
def recordAudit (db : CiphertextStore) (docId : String) : AuditRecord :=
  { ciphertexts_touched := (get_all docId db).length
    decryption_scope := ["similarity_scores"]
    zero_plaintext_docs_exposed := true }

/-! ## Frontend: PdfProvider (src/frontend/src/contexts/PdfContext.tsx) -/

/-- A document entry of the documents endpoint
(src/frontend/src/lib/types, Document interface). -/
structure Doc where
  filename : String
  display_name : String
deriving DecidableEq

/-- The PdfProvider state: React state `currentPdfName`, the localStorage
entry under key "currentPdfName", the fetched document list and the loading
flag (src/frontend/src/contexts/PdfContext.tsx). -/
structure PdfState where
  currentPdfName : Option String
  storedPdfName : Option String
  availableDocuments : List Doc
  isLoadingDocuments : Bool
deriving DecidableEq

/-- The success path of `fetchDocuments` in PdfContext.tsx: set the loading
flag, store the fetched list, then clear both the state selection and the
localStorage entry when the stored name no longer matches any fetched
document's filename, and finally clear the loading flag. -/
def fetchDocumentsSuccess (docs : List Doc) (st : PdfState) : PdfState :=
  match st.storedPdfName with
  | some name =>
    if docs.any fun d => d.filename == name then
      { st with availableDocuments := docs, isLoadingDocuments := false }
    else
      { st with currentPdfName := none, storedPdfName := none, availableDocuments := docs, isLoadingDocuments := false }
  | none => { st with availableDocuments := docs, isLoadingDocuments := false }

/-- `setCurrentPdfName` in PdfContext.tsx: sets the React state and writes or
removes the localStorage entry in step. -/
def setCurrentPdfName (name : Option String) (st : PdfState) : PdfState :=
  match name with
  | some n => { st with currentPdfName := some n, storedPdfName := some n }
  | none => { st with currentPdfName := none, storedPdfName := none }

/-! ## Frontend: chat history (src/frontend/src/components/chat.tsx) -/

/-- Message sender tag. -/
inductive Sender where
  | user
  | bot
deriving DecidableEq

/-- A rendered chat message (chat.tsx Message interface). -/
structure Message where
  sender : Sender
  text : String
  timestamp : String
deriving DecidableEq

/-- A chat-history response entry (chat.tsx loadChatHistory). -/
structure ChatHistoryEntry where
  question : String
  answer : String
  timestamp : String
deriving DecidableEq, Inhabited

/-- The user message rendered for a history entry. -/
def userMsg (e : ChatHistoryEntry) : Message :=
  { sender := Sender.user, text := e.question, timestamp := e.timestamp }

/-- The bot message rendered for a history entry. -/
def botMsg (e : ChatHistoryEntry) : Message :=
  { sender := Sender.bot, text := e.answer, timestamp := e.timestamp }

/-- `loadChatHistory` formatting in chat.tsx: map each entry to the pair
user-question message then bot-answer message, and flatten. -/
def formatHistory (history : List ChatHistoryEntry) : List Message :=
  (history.map fun e => [userMsg e, botMsg e]).flatten

/-! ## Concrete fixtures -/

/-- A small store with two documents, all ciphertexts well formed. -/
def sampleDb : CiphertextStore :=
  [ { doc := "d", cid := 10, ct := encrypt [1, 2], reduced := [1, 2] },
    { doc := "d", cid := 11, ct := encrypt [3, 4], reduced := [3, 4] },
    { doc := "e", cid := 20, ct := encrypt [5], reduced := [5] } ]

/-- A store whose single document has one corrupt and one good chunk. -/
def mixedDb : CiphertextStore :=
  [ { doc := "d", cid := 0, ct := { payload := [1], corrupt := true }, reduced := [1] },
    { doc := "d", cid := 1, ct := encrypt [2], reduced := [2] } ]

/-- A store whose single document has only corrupt chunks. -/
def corruptDb : CiphertextStore :=
  [ { doc := "d", cid := 0, ct := { payload := [1], corrupt := true }, reduced := [1] } ]

/-- A store with a single well-formed chunk, for overlap edge cases. -/
def tinyDb : CiphertextStore :=
  [ { doc := "d", cid := 0, ct := encrypt [1], reduced := [1] } ]

/-- A one-entry chat history. -/
def histSample : List ChatHistoryEntry :=
  [{ question := "q", answer := "a", timestamp := "t" }]

/-- A provider state whose stored selection no longer exists. -/
def staleState : PdfState :=
  { currentPdfName := some "a.pdf", storedPdfName := some "a.pdf",
    availableDocuments := [], isLoadingDocuments := false }

/-- A fetched document list not containing the stale selection. -/
def freshDocs : List Doc :=
  [{ filename := "b.pdf", display_name := "B" }]

/-! ## Helper lemmas -/

theorem chunkScore_encrypt (q : QuantizedVector) (ct : Ciphertext) :
    (evaluate (encrypt q) ct).bind decrypt =
      if ct.corrupt then Except.error FheError.evaluationError
      else Except.ok (dotInt q ct.payload) := by
  cases h : ct.corrupt <;> simp [evaluate, encrypt, decrypt, Except.bind, h]

theorem dotInt_eq_specDot {a b : List Int} (h : a.length = b.length) :
    dotInt a b = specDot a b := by
  induction a generalizing b with
  | nil => simp [dotInt, specDot]
  | cons x xs ih =>
    cases b with
    | nil => simp at h
    | cons y ys =>
      have h2 : xs.length = ys.length := by
        simpa using h
      have hx : dotInt (x :: xs) (y :: ys) = x * y + dotInt xs ys := by
        simp [dotInt]
      rw [hx, ih h2]
      rw [specDot, specDot, List.length_cons, Finset.sum_range_succ']
      simp [add_comm]

theorem get_all_deleteDoc (docId : String) (db : CiphertextStore) :
    get_all docId (deleteDoc docId db) = [] := by
  unfold get_all deleteDoc
  rw [List.filter_filter]
  have hfalse : ∀ r : ChunkRecord, ((r.doc == docId) && !(r.doc == docId)) = false := by
    intro r; cases h : r.doc == docId <;> simp [h]
  simp [hfalse]

theorem scoreChunks_map_cid_of_ok (q : QuantizedVector) :
    ∀ (chunks : List (Nat × Ciphertext)),
      (∀ p ∈ chunks, p.2.corrupt = false) → ∀ i,
        (scoreChunks (encrypt q) i chunks).map Scored.cid = chunks.map Prod.fst := by
  intro chunks
  induction chunks with
  | nil => intro _ i; rfl
  | cons p rest ih =>
    intro hok i
    obtain ⟨cid, ct⟩ := p
    have hc : ct.corrupt = false := hok (cid, ct) (by simp)
    have hrest : ∀ p ∈ rest, p.2.corrupt = false := fun p hp =>
      hok p (List.mem_cons_of_mem _ hp)
    simp [scoreChunks, chunkScore_encrypt, hc, ih hrest]

theorem scoreChunks_length_of_ok (q : QuantizedVector)
    (chunks : List (Nat × Ciphertext)) (hok : ∀ p ∈ chunks, p.2.corrupt = false)
    (i : Nat) : (scoreChunks (encrypt q) i chunks).length = chunks.length := by
  have h := congrArg List.length (scoreChunks_map_cid_of_ok q chunks hok i)
  simpa using h

theorem scoreChunks_nil_of_corrupt (qct : Ciphertext) :
    ∀ (chunks : List (Nat × Ciphertext)),
      (∀ p ∈ chunks, p.2.corrupt = true) → ∀ i, scoreChunks qct i chunks = [] := by
  intro chunks
  induction chunks with
  | nil => intro _ i; rfl
  | cons p rest ih =>
    intro hbad i
    obtain ⟨cid, ct⟩ := p
    have hc : ct.corrupt = true := hbad (cid, ct) (by simp)
    have hrest : ∀ p ∈ rest, p.2.corrupt = true := fun p hp =>
      hbad p (List.mem_cons_of_mem _ hp)
    simp [scoreChunks, evaluate, Except.bind, hc, ih hrest]

theorem scoreChunks_ne_nil (q : QuantizedVector) :
    ∀ (chunks : List (Nat × Ciphertext)),
      (∃ p ∈ chunks, p.2.corrupt = false) → ∀ i, scoreChunks (encrypt q) i chunks ≠ [] := by
  intro chunks
  induction chunks with
  | nil => rintro ⟨p, hp, _⟩; cases hp
  | cons hd rest ih =>
    rintro ⟨p, hp, hc⟩ i
    obtain ⟨cid, ct⟩ := hd
    cases hct : ct.corrupt with
    | false => simp [scoreChunks, chunkScore_encrypt, hct]
    | true =>
      rcases List.mem_cons.mp hp with rfl | hmem
      · rw [hct] at hc; cases hc
      · simp only [scoreChunks, chunkScore_encrypt, hct, if_true]
        exact ih ⟨p, hmem, hc⟩ (i + 1)

theorem scoreChunks_length_countP (q : QuantizedVector) :
    ∀ (chunks : List (Nat × Ciphertext)) (i : Nat),
      (scoreChunks (encrypt q) i chunks).length =
        chunks.countP fun p => !p.2.corrupt := by
  intro chunks
  induction chunks with
  | nil => intro i; rfl
  | cons p rest ih =>
    intro i
    obtain ⟨cid, ct⟩ := p
    cases hct : ct.corrupt with
    | false => simp [scoreChunks, chunkScore_encrypt, hct, List.countP_cons, ih]
    | true => simp [scoreChunks, chunkScore_encrypt, hct, List.countP_cons, ih]

theorem scoreChunks_cid_mem (qct : Ciphertext) :
    ∀ (chunks : List (Nat × Ciphertext)) (i : Nat) (s : Scored Int),
      s ∈ scoreChunks qct i chunks → s.cid ∈ chunks.map Prod.fst := by
  intro chunks
  induction chunks with
  | nil => intro i s hs; cases hs
  | cons p rest ih =>
    intro i s hs
    obtain ⟨cid, ct⟩ := p
    rw [scoreChunks] at hs
    rcases h : (evaluate qct ct).bind decrypt with e | sc
    · rw [h] at hs
      exact List.mem_cons_of_mem _ (ih _ _ hs)
    · rw [h] at hs
      rcases List.mem_cons.mp hs with rfl | hmem
      · simp
      · exact List.mem_cons_of_mem _ (ih _ _ hmem)

theorem similarity_search_ok_length {db : CiphertextStore} {docId : String}
    {q : QuantizedVector} {k : Nat} {l : List (Nat × Int)}
    (h : similarity_search db docId q k = .ok l) : l.length ≤ k := by
  by_cases h1 : get_all docId db = []
  · rw [similarity_search, if_pos h1] at h
    simp only [Except.ok.injEq] at h
    subst h
    simp
  · by_cases h2 : scoredOf db docId q = []
    · rw [similarity_search, if_neg h1, if_pos h2] at h
      cases h
    · rw [similarity_search, if_neg h1, if_neg h2] at h
      simp only [Except.ok.injEq] at h
      subst h
      simp only [List.length_map, List.length_take]
      exact min_le_left _ _

theorem similarity_search_ok_mem_ids {db : CiphertextStore} {docId : String}
    {q : QuantizedVector} {k : Nat} {l : List (Nat × Int)}
    (h : similarity_search db docId q k = .ok l) :
    ∀ p ∈ l, p.1 ∈ (get_all docId db).map Prod.fst := by
  by_cases h1 : get_all docId db = []
  · rw [similarity_search, if_pos h1] at h
    simp only [Except.ok.injEq] at h
    subst h
    intro p hp
    cases hp
  · by_cases h2 : scoredOf db docId q = []
    · rw [similarity_search, if_neg h1, if_pos h2] at h
      cases h
    · rw [similarity_search, if_neg h1, if_neg h2] at h
      simp only [Except.ok.injEq] at h
      subst h
      intro p hp
      simp only [List.mem_map] at hp
      obtain ⟨s, hs, rfl⟩ := hp
      have hs2 : s ∈ rankedOf db docId q := List.mem_of_mem_take hs
      have hs3 : s ∈ scoredOf db docId q :=
        ((List.perm_insertionSort rankRel _).mem_iff).mp hs2
      simpa [projPair] using scoreChunks_cid_mem (encrypt q) (get_all docId db) 0 s hs3

theorem encTopK_length_le (db : CiphertextStore) (docId : String)
    (q : QuantizedVector) (k : Nat) : (encTopK db docId q k).length ≤ k := by
  unfold encTopK
  cases h : similarity_search db docId q k with
  | error e => simp
  | ok l => simpa using similarity_search_ok_length h

theorem clamp_round_bound (x scale : ℚ) (bits : Nat) (hs : 0 < scale)
    (h1 : scale * (-((2 : ℚ) ^ (bits - 1))) ≤ x)
    (h2 : x ≤ scale * ((2 : ℚ) ^ (bits - 1) - 1)) :
    |scale * ((clampInt bits (round (x / scale)) : ℤ) : ℚ) - x| ≤ scale / 2 := by
  have hsne : scale ≠ 0 := ne_of_gt hs
  have hy1 : ((-(2 ^ (bits - 1)) : ℤ) : ℚ) ≤ x / scale := by
    rw [le_div_iff₀ hs]
    push_cast
    linarith
  have hy2 : x / scale ≤ (((2 : ℤ) ^ (bits - 1) - 1 : ℤ) : ℚ) := by
    rw [div_le_iff₀ hs]
    push_cast
    linarith
  have hr1 : -(2 ^ (bits - 1)) ≤ round (x / scale) := by
    rw [round_eq]
    refine Int.le_floor.mpr ?_
    have : (0 : ℚ) ≤ 1 / 2 := by norm_num
    push_cast
    push_cast at hy1
    linarith
  have hr2 : round (x / scale) ≤ 2 ^ (bits - 1) - 1 := by
    rw [round_eq]
    have hlt : x / scale + 1 / 2 < (((2 : ℤ) ^ (bits - 1) - 1 + 1 : ℤ) : ℚ) := by
      push_cast
      push_cast at hy2
      linarith
    have := Int.floor_lt.mpr hlt
    omega
  have hcl : clampInt bits (round (x / scale)) = round (x / scale) := by
    unfold clampInt
    rw [min_eq_right hr2, max_eq_right hr1]
  rw [hcl]
  have hxx : scale * (x / scale) = x := by
    field_simp
  have hsplit : scale * ((round (x / scale) : ℤ) : ℚ) - x =
      scale * (((round (x / scale) : ℤ) : ℚ) - x / scale) := by
    rw [mul_sub, hxx]
  rw [hsplit, abs_mul, abs_of_pos hs]
  have habs : |((round (x / scale) : ℤ) : ℚ) - x / scale| ≤ 1 / 2 := by
    rw [abs_sub_comm]
    exact abs_sub_round (x / scale)
  calc scale * |((round (x / scale) : ℤ) : ℚ) - x / scale|
      ≤ scale * (1 / 2) := mul_le_mul_of_nonneg_left habs (le_of_lt hs)
    _ = scale / 2 := by ring

theorem dequantize_quantize_getD (v : List ℚ) (scale : ℚ) (bits : Nat) :
    ∀ (i : Nat), i < v.length →
      (dequantize (quantize v scale bits) scale).getD i 0 =
        scale * ((clampInt bits (round (v.getD i 0 / scale)) : ℤ) : ℚ) := by
  induction v with
  | nil => intro i hi; simp at hi
  | cons x xs ih =>
    intro i hi
    cases i with
    | zero => simp [dequantize, quantize]
    | succ j =>
      have hj : j < xs.length := by simpa using hi
      simpa [dequantize, quantize] using ih j hj

theorem formatHistory_cons (e : ChatHistoryEntry) (rest : List ChatHistoryEntry) :
    formatHistory (e :: rest) = userMsg e :: botMsg e :: formatHistory rest := by
  simp [formatHistory]

theorem formatHistory_length (l : List ChatHistoryEntry) :
    (formatHistory l).length = 2 * l.length := by
  induction l with
  | nil => rfl
  | cons e rest ih =>
    rw [formatHistory_cons]
    simp only [List.length_cons, List.length_cons, ih]
    omega

theorem formatHistory_getElem (l : List ChatHistoryEntry) :
    ∀ (i : Nat), i < l.length →
      (formatHistory l)[2 * i]? = some (userMsg (l.getD i default)) ∧
      (formatHistory l)[2 * i + 1]? = some (botMsg (l.getD i default)) := by
  induction l with
  | nil => intro i h; simp at h
  | cons e rest ih =>
    intro i h
    cases i with
    | zero => simp [formatHistory_cons]
    | succ j =>
      have hj : j < rest.length := by
        simpa using h
      have h2 : 2 * (j + 1) = 2 * j + 1 + 1 := by ring
      have h3 : 2 * (j + 1) + 1 = 2 * j + 1 + 1 + 1 := by ring
      rw [formatHistory_cons]
      constructor
      · rw [h2, List.getElem?_cons_succ, List.getElem?_cons_succ]
        simpa using (ih j hj).1
      · rw [h3, List.getElem?_cons_succ, List.getElem?_cons_succ]
        simpa using (ih j hj).2

/-! ## Claim theorems -/

/-- C1: for every pair of quantized integer vectors of matching shape,
decrypting the homomorphic evaluation of the dot-product circuit on their
encryptions equals the exact integer dot product, with no approximation
introduced by the homomorphic step. -/
theorem fhe_dot_product_exact (a b : QuantizedVector) (h : a.length = b.length) :
    (evaluate (encrypt a) (encrypt b)).bind decrypt =
      Except.ok (∑ i ∈ Finset.range a.length, a.getD i 0 * b.getD i 0) := by
  have step : (evaluate (encrypt a) (encrypt b)).bind decrypt =
      Except.ok (dotInt a b) := by
    rw [chunkScore_encrypt]
    rfl
  rw [step, dotInt_eq_specDot h, specDot]

/-- Witness for C1 at a = [1, 2], b = [3, 4]. -/
theorem fhe_dot_product_exact_witness :
    ([1, 2] : QuantizedVector).length = ([3, 4] : QuantizedVector).length ∧
    (evaluate (encrypt [1, 2]) (encrypt [3, 4])).bind decrypt =
      Except.ok (∑ i ∈ Finset.range ([1, 2] : QuantizedVector).length,
        ([1, 2] : QuantizedVector).getD i 0 * ([3, 4] : QuantizedVector).getD i 0) :=
  ⟨rfl, fhe_dot_product_exact [1, 2] [3, 4] rfl⟩

/-- C3: for every valid (in-range) input vector, each element of
dequantize(quantize(v, scale, bits)) differs from the corresponding element
of v by at most scale/2, with quantize the round-and-clip affine mapping. -/
theorem quantize_dequantize_error_bound (v : List ℚ) (scale : ℚ) (bits : Nat)
    (hs : 0 < scale)
    (hin : ∀ x ∈ v, scale * (-((2 : ℚ) ^ (bits - 1))) ≤ x ∧
      x ≤ scale * ((2 : ℚ) ^ (bits - 1) - 1))
    (i : Nat) (hi : i < v.length) :
    |(dequantize (quantize v scale bits) scale).getD i 0 - v.getD i 0| ≤ scale / 2 := by
  rw [dequantize_quantize_getD v scale bits i hi]
  have hmem : v.getD i 0 ∈ v := by
    rw [List.getD_eq_getElem?_getD, List.getElem?_eq_getElem hi]
    exact List.getElem_mem hi
  exact clamp_round_bound (v.getD i 0) scale bits hs (hin _ hmem).1 (hin _ hmem).2

/-- Witness for C3 at v = [0], scale = 1, bits = 1, i = 0. -/
theorem quantize_dequantize_error_bound_witness :
    (0 : ℚ) < 1 ∧
    (∀ x ∈ [(0 : ℚ)], (1 : ℚ) * (-((2 : ℚ) ^ (1 - 1))) ≤ x ∧
      x ≤ (1 : ℚ) * ((2 : ℚ) ^ (1 - 1) - 1)) ∧
    0 < ([(0 : ℚ)]).length ∧
    |(dequantize (quantize [(0 : ℚ)] 1 1) 1).getD 0 0 - ([(0 : ℚ)]).getD 0 0| ≤ 1 / 2 :=
  ⟨by decide, by simp, by decide,
    quantize_dequantize_error_bound [(0 : ℚ)] 1 1 (by decide) (by simp) 0 (by decide)⟩

/-- C4: similarity_search is deterministic — identical stored chunks and
identical query and k yield identical ordered output, including the order of
tied-score entries. -/
theorem similarity_search_deterministic (db1 db2 : CiphertextStore)
    (doc1 doc2 : String) (q1 q2 : QuantizedVector) (k1 k2 : Nat)
    (hdb : db1 = db2) (hdoc : doc1 = doc2) (hq : q1 = q2) (hk : k1 = k2) :
    similarity_search db1 doc1 q1 k1 = similarity_search db2 doc2 q2 k2 := by
  subst hdb
  subst hdoc
  subst hq
  subst hk
  rfl

/-- Witness for C4 on the sample store. -/
theorem similarity_search_deterministic_witness :
    sampleDb = sampleDb ∧ "d" = "d" ∧ ([1, 0] : QuantizedVector) = [1, 0] ∧
      (2 : Nat) = 2 ∧
      similarity_search sampleDb "d" [1, 0] 2 = similarity_search sampleDb "d" [1, 0] 2 :=
  ⟨rfl, rfl, rfl, rfl,
    similarity_search_deterministic sampleDb sampleDb "d" "d" [1, 0] [1, 0] 2 2
      rfl rfl rfl rfl⟩

/-- C7: a document with zero stored chunks yields an empty result, not an
error; and after delete(document_id) a subsequent similarity_search returns
an empty result rather than stale scores. -/
theorem empty_search_ok (db : CiphertextStore) (docId : String)
    (q : QuantizedVector) (k : Nat) :
    (get_all docId db = [] → similarity_search db docId q k = .ok []) ∧
    similarity_search (deleteDoc docId db) docId q k = .ok [] := by
  constructor
  · intro h
    rw [similarity_search, if_pos h]
  · rw [similarity_search, if_pos (get_all_deleteDoc docId db)]

/-- Witness for C7: document "x" has no chunks in the sample store. -/
theorem empty_search_ok_witness :
    get_all "x" sampleDb = [] ∧ similarity_search sampleDb "x" [1] 3 = .ok [] :=
  ⟨by decide, (empty_search_ok sampleDb "x" [1] 3).1 (by decide)⟩

/-- C9: after a successful document-list refresh, the selected PDF name in
state and in localStorage agree and are either null or the filename of some
fetched document; a stale selection is cleared. -/
theorem fetch_documents_selection_invariant (docs : List Doc) (st : PdfState)
    (hsync : st.currentPdfName = st.storedPdfName) :
    (fetchDocumentsSuccess docs st).availableDocuments = docs ∧
    (fetchDocumentsSuccess docs st).currentPdfName =
      (fetchDocumentsSuccess docs st).storedPdfName ∧
    ((fetchDocumentsSuccess docs st).currentPdfName = none ∨
      ∃ d ∈ docs, (fetchDocumentsSuccess docs st).currentPdfName = some d.filename) := by
  obtain ⟨cur, stored, avail, loading⟩ := st
  have hcs : cur = stored := hsync
  subst hcs
  cases cur with
  | none => exact ⟨rfl, rfl, Or.inl rfl⟩
  | some name =>
    have hred : fetchDocumentsSuccess docs ⟨some name, some name, avail, loading⟩ =
        if docs.any (fun d => d.filename == name) then
          { currentPdfName := some name, storedPdfName := some name,
            availableDocuments := docs, isLoadingDocuments := false }
        else
          { currentPdfName := none, storedPdfName := none,
            availableDocuments := docs, isLoadingDocuments := false } := rfl
    by_cases hany : (docs.any fun d => d.filename == name) = true
    · rw [hred, if_pos hany]
      refine ⟨rfl, rfl, Or.inr ?_⟩
      obtain ⟨d, hd, hdeq⟩ := List.any_eq_true.mp hany
      refine ⟨d, hd, ?_⟩
      have hfn : d.filename = name := by simpa using hdeq
      rw [hfn]
    · rw [hred, if_neg hany]
      exact ⟨rfl, rfl, Or.inl rfl⟩

/-- Witness for C9: a stale stored selection is cleared by a refresh. -/
theorem fetch_documents_selection_invariant_witness :
    staleState.currentPdfName = staleState.storedPdfName ∧
    ((fetchDocumentsSuccess freshDocs staleState).currentPdfName =
        (fetchDocumentsSuccess freshDocs staleState).storedPdfName ∧
      ((fetchDocumentsSuccess freshDocs staleState).currentPdfName = none ∨
        ∃ d ∈ freshDocs,
          (fetchDocumentsSuccess freshDocs staleState).currentPdfName =
            some d.filename)) :=
  ⟨rfl, (fetch_documents_selection_invariant freshDocs staleState rfl).2⟩

/-- C10: the rendered message list for a chat-history response is exactly,
per history entry in response order, one user message with the question
followed by one bot message with the answer, both carrying the entry's
timestamp — 2n messages for n entries, alternating senders. -/
theorem chat_history_rendering (history : List ChatHistoryEntry) :
    (formatHistory history).length = 2 * history.length ∧
    ∀ i, i < history.length →
      (formatHistory history)[2 * i]? =
        some { sender := Sender.user, text := (history.getD i default).question,
               timestamp := (history.getD i default).timestamp } ∧
      (formatHistory history)[2 * i + 1]? =
        some { sender := Sender.bot, text := (history.getD i default).answer,
               timestamp := (history.getD i default).timestamp } := by
  refine ⟨formatHistory_length history, ?_⟩
  intro i h
  simpa [userMsg, botMsg] using formatHistory_getElem history i h

/-- Witness for C10 on a one-entry history. -/
theorem chat_history_rendering_witness :
    (formatHistory histSample).length = 2 * histSample.length ∧
    (0 < histSample.length ∧
      (formatHistory histSample)[2 * 0]? =
        some { sender := Sender.user, text := (histSample.getD 0 default).question,
               timestamp := (histSample.getD 0 default).timestamp } ∧
      (formatHistory histSample)[2 * 0 + 1]? =
        some { sender := Sender.bot, text := (histSample.getD 0 default).answer,
               timestamp := (histSample.getD 0 default).timestamp }) :=
  ⟨(chat_history_rendering histSample).1,
    by decide, (chat_history_rendering histSample).2 0 (by decide)⟩

/-- C2: similarity_search returns the stored chunks' (chunk_id, score) pairs
sorted in descending score order with ties broken by ascending chunk
insertion order, truncated to the first k; when k exceeds the number of
stored chunks, all chunks are returned ranked. -/
theorem similarity_search_ranking (db : CiphertextStore) (docId : String)
    (q : QuantizedVector) (k : Nat)
    (hok : ∀ p ∈ get_all docId db, p.2.corrupt = false) :
    similarity_search db docId q k =
      .ok (((rankedOf db docId q).take k).map projPair) ∧
    List.Sorted rankRel (rankedOf db docId q) ∧
    List.Perm (rankedOf db docId q) (scoredOf db docId q) ∧
    (scoredOf db docId q).length = (get_all docId db).length ∧
    ((get_all docId db).length ≤ k →
      (rankedOf db docId q).take k = rankedOf db docId q) := by
  have hlen : (scoredOf db docId q).length = (get_all docId db).length :=
    scoreChunks_length_of_ok q _ hok 0
  have hperm : List.Perm (rankedOf db docId q) (scoredOf db docId q) :=
    List.perm_insertionSort rankRel _
  refine ⟨?_, List.sorted_insertionSort rankRel _, hperm, hlen, ?_⟩
  · by_cases h1 : get_all docId db = []
    · rw [similarity_search, if_pos h1]
      have hsc : scoredOf db docId q = [] := by
        rw [scoredOf, h1]
        rfl
      rw [rankedOf, hsc]
      simp [List.insertionSort]
    · have h2 : scoredOf db docId q ≠ [] := by
        intro hsc
        rw [hsc] at hlen
        exact h1 (List.length_eq_zero.mp hlen.symm)
      rw [similarity_search, if_neg h1, if_neg h2]
  · intro hk
    apply List.take_of_length_le
    rw [hperm.length_eq, hlen]
    exact hk

/-- Witness for C2 on the sample store. -/
theorem similarity_search_ranking_witness :
    (∀ p ∈ get_all "d" sampleDb, p.2.corrupt = false) ∧
    (similarity_search sampleDb "d" [1, 0] 1 =
        .ok (((rankedOf sampleDb "d" [1, 0]).take 1).map projPair) ∧
      List.Sorted rankRel (rankedOf sampleDb "d" [1, 0]) ∧
      List.Perm (rankedOf sampleDb "d" [1, 0]) (scoredOf sampleDb "d" [1, 0]) ∧
      (scoredOf sampleDb "d" [1, 0]).length = (get_all "d" sampleDb).length ∧
      ((get_all "d" sampleDb).length ≤ 1 →
        (rankedOf sampleDb "d" [1, 0]).take 1 = rankedOf sampleDb "d" [1, 0])) :=
  ⟨by decide, similarity_search_ranking sampleDb "d" [1, 0] 1 (by decide)⟩

/-- C5: every audit record has zero_plaintext_docs_exposed true and a
decryption scope of exactly the fixed singleton "similarity_scores"; no
encrypted-search result ever carries chunk plaintext — every returned entry
is a stored chunk id with its integer score. -/
theorem audit_record_invariant (db : CiphertextStore) (docId : String)
    (q : QuantizedVector) (k : Nat) :
    (recordAudit db docId).zero_plaintext_docs_exposed = true ∧
    (recordAudit db docId).decryption_scope = ["similarity_scores"] ∧
    ∀ l, similarity_search db docId q k = .ok l →
      ∀ p ∈ l, p.1 ∈ (get_all docId db).map Prod.fst :=
  ⟨rfl, rfl, fun _ h => similarity_search_ok_mem_ids h⟩

/-- Witness for C5 on the sample store. -/
theorem audit_record_invariant_witness :
    (recordAudit sampleDb "d").zero_plaintext_docs_exposed = true ∧
    (recordAudit sampleDb "d").decryption_scope = ["similarity_scores"] ∧
    similarity_search sampleDb "d" [1, 0] 2 = .ok [(11, 3), (10, 1)] ∧
    (11, (3 : Int)) ∈ [((11 : Nat), (3 : Int)), (10, 1)] ∧
    (11 : Nat) ∈ (get_all "d" sampleDb).map Prod.fst :=
  ⟨(audit_record_invariant sampleDb "d" [1, 0] 2).1,
   (audit_record_invariant sampleDb "d" [1, 0] 2).2.1,
   rfl, by decide,
   (audit_record_invariant sampleDb "d" [1, 0] 2).2.2 [(11, 3), (10, 1)]
     rfl (11, 3) (by decide)⟩

/-- C8: a chunk whose homomorphic evaluation fails is skipped and the
ranking is computed over the remaining chunks, with the skip count
observable; but when every chunk of a nonempty document fails, the search
surfaces a failure instead of an empty or misleading top-k. -/
theorem search_error_policy (db : CiphertextStore) (docId : String)
    (q : QuantizedVector) (k : Nat) :
    (get_all docId db ≠ [] → (∀ p ∈ get_all docId db, p.2.corrupt = true) →
      similarity_search db docId q k = .error .allChunksFailed) ∧
    ((∃ p ∈ get_all docId db, p.2.corrupt = false) →
      similarity_search db docId q k =
        .ok (((rankedOf db docId q).take k).map projPair)) ∧
    skippedCount db docId q =
      ((get_all docId db).filter fun p => p.2.corrupt).length := by
  refine ⟨?_, ?_, ?_⟩
  · intro h1 hbad
    have hsc : scoredOf db docId q = [] :=
      scoreChunks_nil_of_corrupt (encrypt q) _ hbad 0
    rw [similarity_search, if_neg h1, if_pos hsc]
  · rintro ⟨p, hp, hc⟩
    have h1 : get_all docId db ≠ [] := by
      intro h
      rw [h] at hp
      cases hp
    have h2 : scoredOf db docId q ≠ [] :=
      scoreChunks_ne_nil q _ ⟨p, hp, hc⟩ 0
    rw [similarity_search, if_neg h1, if_neg h2]
  · have hlen : (scoredOf db docId q).length =
        (get_all docId db).countP fun p => !p.2.corrupt :=
      scoreChunks_length_countP q _ 0
    have hsplit := List.length_eq_countP_add_countP
      (fun p : Nat × Ciphertext => p.2.corrupt) (get_all docId db)
    have hfun : ((get_all docId db).countP fun p => !p.2.corrupt) =
        (get_all docId db).countP fun a => decide ¬(a.2.corrupt = true) :=
      List.countP_congr (by intro a _; cases h : a.2.corrupt <;> simp [h])
    rw [skippedCount, hlen, ← List.countP_eq_length_filter, hfun]
    omega

/-- Witness for C8: an all-corrupt document fails as a whole, while a
mixed document is ranked over its good chunks with one skip recorded. -/
theorem search_error_policy_witness :
    get_all "d" corruptDb ≠ [] ∧
    (∀ p ∈ get_all "d" corruptDb, p.2.corrupt = true) ∧
    similarity_search corruptDb "d" [1] 1 = .error .allChunksFailed ∧
    (∃ p ∈ get_all "d" mixedDb, p.2.corrupt = false) ∧
    similarity_search mixedDb "d" [1] 1 =
      .ok (((rankedOf mixedDb "d" [1]).take 1).map projPair) ∧
    skippedCount mixedDb "d" [1] =
      ((get_all "d" mixedDb).filter fun p => p.2.corrupt).length :=
  ⟨by decide, by decide,
   (search_error_policy corruptDb "d" [1] 1).1 (by decide) (by decide),
   by decide,
   (search_error_policy mixedDb "d" [1] 1).2.1 (by decide),
   (search_error_policy mixedDb "d" [1] 1).2.2⟩

/-- C6 counterexample: with a single stored chunk and k = 2, the encrypted
and plaintext top-k sets are identical, yet the recorded overlap is 1/2, not
1.0, because the divisor is k rather than the top-k set size. -/
theorem overlap_not_one_on_identical_sets :
    (encTopK tinyDb "d" [2] 2).toFinset = (plainTopK tinyDb "d" [2] 2).toFinset ∧
    overlap tinyDb "d" [2] [2] 2 ≠ 1 := by
  constructor
  · decide
  · have hcard : ((encTopK tinyDb "d" [2] 2).toFinset ∩
        (plainTopK tinyDb "d" [2] 2).toFinset).card = 1 := by decide
    rw [overlap, hcard]
    norm_num

/-- C6 (amended): the recorded overlap equals the size of the intersection
of the encrypted and plaintext top-k sets divided by k, and lies in [0,1];
it equals 1.0 whenever the two top-k sets are identical and the query
requests no more entries than the document stores (0 < k ≤ chunk count, with
distinct chunk ids and well-formed ciphertexts), so that each top-k list
holds exactly k entries. -/
theorem overlap_bounds_and_identity (db : CiphertextStore) (docId : String)
    (q : QuantizedVector) (qred : List ℚ) (k : Nat) :
    overlap db docId q qred k =
      (((encTopK db docId q k).toFinset ∩
        (plainTopK db docId qred k).toFinset).card : ℚ) / (k : ℚ) ∧
    0 ≤ overlap db docId q qred k ∧
    overlap db docId q qred k ≤ 1 ∧
    (0 < k → k ≤ (get_all docId db).length →
      (∀ p ∈ get_all docId db, p.2.corrupt = false) →
      ((get_all docId db).map Prod.fst).Nodup →
      (encTopK db docId q k).toFinset = (plainTopK db docId qred k).toFinset →
      overlap db docId q qred k = 1) := by
  refine ⟨rfl, ?_, ?_, ?_⟩
  · rw [overlap]
    exact div_nonneg (Nat.cast_nonneg _) (Nat.cast_nonneg _)
  · have hcard : ((encTopK db docId q k).toFinset ∩
        (plainTopK db docId qred k).toFinset).card ≤ k := by
      calc ((encTopK db docId q k).toFinset ∩
            (plainTopK db docId qred k).toFinset).card
          ≤ (encTopK db docId q k).toFinset.card :=
            Finset.card_le_card Finset.inter_subset_left
        _ ≤ (encTopK db docId q k).length := List.toFinset_card_le _
        _ ≤ k := encTopK_length_le db docId q k
    rcases Nat.eq_zero_or_pos k with hk | hk
    · subst hk
      rw [overlap]
      norm_num
    · rw [overlap, div_le_one (by exact_mod_cast hk)]
      exact_mod_cast hcard
  · intro hk hkn hok hnodup hsets
    have h1 : get_all docId db ≠ [] := by
      intro h
      rw [h] at hkn
      simp at hkn
      omega
    have hlen : (scoredOf db docId q).length = (get_all docId db).length :=
      scoreChunks_length_of_ok q _ hok 0
    have h2 : scoredOf db docId q ≠ [] := by
      intro hsc
      rw [hsc] at hlen
      exact h1 (List.length_eq_zero.mp hlen.symm)
    have hsearch : similarity_search db docId q k =
        .ok (((rankedOf db docId q).take k).map projPair) := by
      rw [similarity_search, if_neg h1, if_neg h2]
    have henc : encTopK db docId q k =
        ((rankedOf db docId q).take k).map Scored.cid := by
      rw [encTopK, hsearch]
      simp only [List.map_map]
      rw [show (Prod.fst ∘ projPair) = Scored.cid from funext fun s => rfl]
    have hperm : List.Perm (rankedOf db docId q) (scoredOf db docId q) :=
      List.perm_insertionSort rankRel _
    have hmapcid : List.Perm ((rankedOf db docId q).map Scored.cid)
        ((get_all docId db).map Prod.fst) := by
      have h3 := hperm.map Scored.cid
      rw [scoredOf, scoreChunks_map_cid_of_ok q _ hok 0] at h3
      exact h3
    have hnodup2 : ((rankedOf db docId q).map Scored.cid).Nodup :=
      (hmapcid.nodup_iff).mpr hnodup
    have htake : ((rankedOf db docId q).take k).map Scored.cid =
        ((rankedOf db docId q).map Scored.cid).take k := List.map_take _ _ _
    have hnodup3 : (encTopK db docId q k).Nodup := by
      rw [henc, htake]
      exact hnodup2.sublist (List.take_sublist _ _)
    have hrlen : (rankedOf db docId q).length = (get_all docId db).length := by
      rw [hperm.length_eq, hlen]
    have hlen4 : (encTopK db docId q k).length = k := by
      rw [henc]
      simp only [List.length_map, List.length_take]
      rw [hrlen]
      exact Nat.min_eq_left hkn
    have hcardk : (encTopK db docId q k).toFinset.card = k := by
      rw [List.toFinset_card_of_nodup hnodup3, hlen4]
    rw [overlap, ← hsets, Finset.inter_self, hcardk, div_self]
    exact_mod_cast Nat.pos_iff_ne_zero.mp hk

/-- Witness for the amended C6 on the single-chunk store with k = 1. -/
theorem overlap_bounds_and_identity_witness :
    0 < 1 ∧ 1 ≤ (get_all "d" tinyDb).length ∧
    (∀ p ∈ get_all "d" tinyDb, p.2.corrupt = false) ∧
    ((get_all "d" tinyDb).map Prod.fst).Nodup ∧
    (encTopK tinyDb "d" [2] 1).toFinset = (plainTopK tinyDb "d" [2] 1).toFinset ∧
    overlap tinyDb "d" [2] [2] 1 = 1 :=
  ⟨by decide, by decide, by decide, by decide, by decide,
   (overlap_bounds_and_identity tinyDb "d" [2] [2] 1).2.2.2 (by decide) (by decide)
     (by decide) (by decide) (by decide)⟩

end PdfChat
